import Mathlib

/-!
Verification development for the naval-waf-anomaly-detection pipeline.

Shallow embedding of the pipeline's pure core:
  * `alignFeatures` — the schema validation and column selection step of
    `run_anomaly_detection` (src/ml/anomaly_detector.py);
  * `generate_explanations` / `explain_row` — the baseline explainer
    (src/ml/explainability.py);
  * `compute_risk_score` / `severity` — the composite risk policy
    (src/ml/ml_engine.py);
  * `calculate_risk` / `assign_severity` / `recommend_rule` — the
    weighted-cap rule engine (src/rules/rule_engine.py);
  * `burst_score` — the batch-relative normalization
    (src/features/feature_engineering.py).

pandas float cells are modelled as `Option ℚ`: `none` stands for a
non-finite float (NaN or ±inf), which pandas produces on division by zero
and on the mean of an empty selection, and which every ordered comparison
treats as false.  Strings are modelled as `List Char`.
-/

/-- Python's `str.lower`, applied characterwise. -/
def pyLower (s : List Char) : List Char := s.map Char.toLower

/-- Python's substring test `p in s` on character lists. -/
def containsSub (p : List Char) : List Char → Bool
  | [] => p.isEmpty
  | c :: rest => p.isPrefixOf (c :: rest) || containsSub p rest

/-- Addition on pandas cells: NaN propagates. -/
def pAdd : Option ℚ → Option ℚ → Option ℚ
  | some a, some b => some (a + b)
  | _, _ => none

/-- Multiplication of a pandas cell by a finite constant: NaN propagates. -/
def pMulC (o : Option ℚ) (k : ℚ) : Option ℚ := o.map (· * k)

/-- Division of a finite value by a pandas cell: a zero or non-finite
denominator yields a non-finite float (NaN or ±inf), modelled as `none`. -/
def pDiv (a : ℚ) : Option ℚ → Option ℚ
  | none => none
  | some b => if b = 0 then none else some (a / b)

/-- The comparison `a > o` on pandas cells: any comparison against NaN is
false. -/
def pGT (a : ℚ) : Option ℚ → Bool
  | none => false
  | some b => decide (b < a)

/-- `Series.mean` of a list of finite values: NaN on an empty selection. -/
def pMean (xs : List ℚ) : Option ℚ :=
  if xs.isEmpty then none else some (xs.sum / xs.length)

/-- `Series.max` of a list of finite values: NaN on an empty selection. -/
def pMax : List ℚ → Option ℚ
  | [] => none
  | x :: xs => some (xs.foldl max x)

/-- Round-half-even to an integer, the rounding of Python's `round` and of
pandas `.round`. -/
def roundHalfEven (q : ℚ) : ℤ :=
  if q - ⌊q⌋ < 1 / 2 then ⌊q⌋
  else if 1 / 2 < q - ⌊q⌋ then ⌊q⌋ + 1
  else if ⌊q⌋ % 2 = 0 then ⌊q⌋ else ⌊q⌋ + 1

/-- `.round(2)`: round to two decimal places, half to even. -/
def round2 (q : ℚ) : ℚ := (roundHalfEven (q * 100) : ℚ) / 100

/-- `.round(2)` on a pandas cell. -/
def pRound2 : Option ℚ → Option ℚ := Option.map round2

/-- Python's `int()` on a finite float: truncation toward zero. -/
def pyInt (q : ℚ) : ℤ := if 0 ≤ q then ⌊q⌋ else ⌈q⌉

/-! ## Schema-bound inference (src/ml/anomaly_detector.py) -/

/-- A feature table: its column index and the values of each column. -/
structure DataFrame where
  cols : List String
  col : String → List ℚ

/-- The check `missing = [col for col in feature_columns if col not in
df.columns]` of `run_anomaly_detection`. -/
def missingColumns (feature_columns : List String) (df : DataFrame) : List String :=
  feature_columns.filter (fun c => decide (c ∉ df.cols))

/-- The schema-alignment step of `run_anomaly_detection`: raise `ValueError`
naming the missing columns when any schema column is absent, otherwise pass
to the model exactly `X = df[feature_columns]`, the declared columns in
declared order. -/
def alignFeatures (feature_columns : List String) (df : DataFrame) :
    Except (List String) (List (String × List ℚ)) :=
  let missing := missingColumns feature_columns df
  if missing.isEmpty then
    Except.ok (feature_columns.map (fun c => (c, df.col c)))
  else
    Except.error missing

/-! ## Severity maps (src/rules/rule_engine.py and src/ml/ml_engine.py) -/

/-- `assign_severity` of the rule engine: thresholds 70 and 40 on the
integer weighted-cap risk score. -/
def assign_severity (score : ℤ) : List Char :=
  if 70 ≤ score then ("High".toList)
  else if 40 ≤ score then ("Medium".toList)
  else ("Low".toList)

/-- `severity` of the ML engine: thresholds 7 and 4 on the composite risk
score. -/
def severity (score : ℚ) : List Char :=
  if 7 ≤ score then ("High".toList)
  else if 4 ≤ score then ("Medium".toList)
  else ("Low".toList)

/-- The order Low < Medium < High as a rank. -/
def sevRank (s : List Char) : ℕ :=
  if s = ("High".toList) then 2
  else if s = ("Medium".toList) then 1
  else 0

/-! ## Weighted-cap risk (src/rules/rule_engine.py) -/

/-- A row of the rule engine's input, restricted to the fields
`calculate_risk` reads. -/
structure RuleRow where
  req_per_min : ℚ
  error_rate : ℚ
  burst_score : ℚ
deriving DecidableEq

/-- `calculate_risk`: `min(req_per_min * 0.5, 30) + error_rate * 40 +
burst_score * 30`, then `int(min(score, 100))`. -/
def calculate_risk (row : RuleRow) : ℤ :=
  let score : ℚ :=
    0 + min (row.req_per_min * (1 / 2)) 30 + row.error_rate * 40 + row.burst_score * 30
  pyInt (min score 100)

/-- Modelled from the spec's wording of the weighted-cap policy: the same
sum "truncated to an integer and clamped to [0,100]". -/
def weightedCapSpec (row : RuleRow) : ℤ :=
  max 0 (min 100
    (pyInt (min (row.req_per_min * (1 / 2)) 30 + row.error_rate * 40 + row.burst_score * 30)))

/-! ## Claims C1 and C8: the schema contract -/

/-- C1: for every declared feature schema and every input table missing one
or more schema columns, the alignment step fails, and the error names
exactly the set of schema columns absent from the input. -/
theorem inference_missing_columns_error
    (feature_columns : List String) (df : DataFrame)
    (h : ∃ c ∈ feature_columns, c ∉ df.cols) :
    ∃ m, alignFeatures feature_columns df = Except.error m ∧
      ∀ c, c ∈ m ↔ (c ∈ feature_columns ∧ c ∉ df.cols) := by
  obtain ⟨c0, hc0, hc0n⟩ := h
  have hmem : c0 ∈ missingColumns feature_columns df := by
    simp [missingColumns, List.mem_filter, hc0, hc0n]
  have hne : ¬ (missingColumns feature_columns df).isEmpty := by
    cases hcase : missingColumns feature_columns df with
    | nil => rw [hcase] at hmem; cases hmem
    | cons a l => simp [hcase]
  refine ⟨missingColumns feature_columns df, ?_, ?_⟩
  · simp [alignFeatures, hne]
  · intro c
    simp [missingColumns, List.mem_filter]

/-- Witness for C1: a schema asking for columns a and b against a table
holding only b fails naming exactly a. -/
theorem inference_missing_columns_error_witness :
    ∃ m, alignFeatures (["a", "b"]) ({ cols := ["b"], col := fun _ => [] }) = Except.error m ∧
      ∀ c, c ∈ m ↔ (c ∈ (["a", "b"]) ∧ c ∉ ({ cols := ["b"], col := fun _ => [] } : DataFrame).cols) :=
  inference_missing_columns_error (["a", "b"]) ({ cols := ["b"], col := fun _ => [] })
    (by refine ⟨"a", by decide, by decide⟩)

/-- C8: when the input's columns are a strict superset of the schema, the
alignment step succeeds and the matrix handed to the scoring function is
exactly the schema columns, in schema order, the extras ignored. -/
theorem inference_ignores_extra_columns
    (feature_columns : List String) (df : DataFrame)
    (hsub : ∀ c ∈ feature_columns, c ∈ df.cols)
    (hextra : ∃ e ∈ df.cols, e ∉ feature_columns) :
    alignFeatures feature_columns df =
      Except.ok (feature_columns.map (fun c => (c, df.col c))) ∧
    (feature_columns.map (fun c => (c, df.col c))).map Prod.fst = feature_columns := by
  have hmiss : missingColumns feature_columns df = [] := by
    rw [List.eq_nil_iff_forall_not_mem]
    intro c hc
    rw [missingColumns, List.mem_filter] at hc
    exact (of_decide_eq_true hc.2) (hsub c hc.1)
  constructor
  · simp [alignFeatures, hmiss]
  · rw [List.map_map]
    exact List.map_id'' (fun c => rfl) feature_columns

/-- Witness for C8: a table with an extra entity-id column around the
schema columns a and b aligns to exactly a then b. -/
theorem inference_ignores_extra_columns_witness :
    alignFeatures (["a", "b"]) ({ cols := ["ip", "b", "a"], col := fun _ => [1] }) =
      Except.ok ((["a", "b"]).map (fun c => (c, ({ cols := ["ip", "b", "a"], col := fun _ => [1] } : DataFrame).col c))) ∧
    ((["a", "b"]).map (fun c => (c, ({ cols := ["ip", "b", "a"], col := fun _ => [1] } : DataFrame).col c))).map Prod.fst = (["a", "b"]) :=
  inference_ignores_extra_columns (["a", "b"]) ({ cols := ["ip", "b", "a"], col := fun _ => [1] })
    (by decide) (by refine ⟨"ip", by decide, by decide⟩)

/-! ## Claim C5: severity monotone in risk score, per policy -/

theorem assign_severity_mono (a b : ℤ) (h : a ≤ b) :
    sevRank (assign_severity a) ≤ sevRank (assign_severity b) := by
  unfold assign_severity
  split_ifs <;> first | decide | omega

theorem severity_mono (x y : ℚ) (h : x ≤ y) :
    sevRank (severity x) ≤ sevRank (severity y) := by
  unfold severity
  split_ifs <;> first | decide | linarith

/-- C5: under either policy taken separately — `assign_severity` of the
rule engine and `severity` of the ML engine — severity is monotone
non-decreasing in the risk score, in the order Low < Medium < High. -/
theorem severity_monotone (a b : ℤ) (x y : ℚ) (hab : a ≤ b) (hxy : x ≤ y) :
    sevRank (assign_severity a) ≤ sevRank (assign_severity b) ∧
    sevRank (severity x) ≤ sevRank (severity y) :=
  ⟨assign_severity_mono a b hab, severity_mono x y hxy⟩

/-- Witness for C5 at concrete scores crossing both thresholds. -/
theorem severity_monotone_witness :
    sevRank (assign_severity 39) ≤ sevRank (assign_severity 70) ∧
    sevRank (severity (39 / 10)) ≤ sevRank (severity 7) :=
  severity_monotone 39 70 (39 / 10) 7 (by decide) (by norm_num)

/-! ## Claim C7: the weighted-cap formula -/

theorem floor_min_hundred (s : ℚ) : ⌊min s 100⌋ = min ⌊s⌋ 100 := by
  rcases le_total s 100 with hle | hge
  · rw [min_eq_left hle, min_eq_left]
    exact_mod_cast Int.floor_le_floor hle |>.trans_eq (by norm_num)
  · rw [min_eq_right hge, min_eq_right]
    · norm_num
    · have : (100 : ℤ) = ⌊(100 : ℚ)⌋ := by norm_num
      rw [this]
      exact_mod_cast Int.floor_le_floor hge

/-- C7: on every record with non-negative request rate, error rate and
burst score (the data model's invariants), `calculate_risk` equals the
spec's weighted-cap formula: the capped sum truncated to an integer and
clamped to [0,100]. -/
theorem weighted_cap_risk_formula (row : RuleRow)
    (hreq : 0 ≤ row.req_per_min) (herr : 0 ≤ row.error_rate)
    (hburst : 0 ≤ row.burst_score) :
    calculate_risk row = weightedCapSpec row := by
  have hs : (0 : ℚ) ≤ min (row.req_per_min * (1 / 2)) 30 + row.error_rate * 40 + row.burst_score * 30 :=
    add_nonneg
      (add_nonneg (le_min (mul_nonneg hreq (by norm_num)) (by norm_num))
        (mul_nonneg herr (by norm_num)))
      (mul_nonneg hburst (by norm_num))
  unfold calculate_risk weightedCapSpec
  rw [zero_add]
  set s : ℚ := min (row.req_per_min * (1 / 2)) 30 + row.error_rate * 40 + row.burst_score * 30 with hsdef
  have h100 : (0 : ℚ) ≤ min s 100 := le_min hs (by norm_num)
  have hfl : (0 : ℤ) ≤ ⌊s⌋ := Int.floor_nonneg.mpr hs
  unfold pyInt
  rw [if_pos h100, if_pos hs, floor_min_hundred]
  omega

/-- Witness for C7 at a concrete record: 10 requests/min, error rate 1/2,
burst score 9/10 gives risk 52 under both formulations. -/
theorem weighted_cap_risk_formula_witness :
    calculate_risk ({ req_per_min := 10, error_rate := 1 / 2, burst_score := 9 / 10 }) =
      weightedCapSpec ({ req_per_min := 10, error_rate := 1 / 2, burst_score := 9 / 10 }) ∧
    calculate_risk ({ req_per_min := 10, error_rate := 1 / 2, burst_score := 9 / 10 }) = 52 :=
  ⟨weighted_cap_risk_formula _ (by norm_num) (by norm_num) (by norm_num), by
    norm_num [calculate_risk, pyInt, min_def]⟩

/-! ## Composite risk (src/ml/ml_engine.py) -/

/-- A row of the engineered feature set, as the explainer and the ML engine
read it.  The label is the `anomaly_label` string attached by the detector. -/
structure TrafficRow where
  req_per_min : ℚ
  error_rate : ℚ
  avg_resp_time : ℚ
  avg_req_size : ℚ
  unique_endpoints : ℚ
  anomaly_label : List Char
deriving DecidableEq

/-- `compute_risk_score`: per record,
`(req_per_min / req_per_min.max()) * 4 + error_rate * 4 +
(avg_resp_time / avg_resp_time.max()) * 2`, rounded to 2 decimals. -/
def compute_risk_score (rows : List TrafficRow) : List (Option ℚ) :=
  let mreq := pMax (rows.map (·.req_per_min))
  let mresp := pMax (rows.map (·.avg_resp_time))
  rows.map (fun r =>
    pRound2 (pAdd
      (pAdd (pMulC (pDiv r.req_per_min mreq) 4) (some (r.error_rate * 4)))
      (pMulC (pDiv r.avg_resp_time mresp) 2)))

theorem le_foldl_max (a : ℚ) (xs : List ℚ) : a ≤ xs.foldl max a := by
  induction xs generalizing a with
  | nil => exact le_refl a
  | cons x xs ih =>
    rw [List.foldl_cons]
    exact le_trans (le_max_left a x) (ih (max a x))

theorem mem_le_foldl_max (b a : ℚ) (xs : List ℚ) (h : b ∈ xs) : b ≤ xs.foldl max a := by
  induction xs generalizing a with
  | nil => cases h
  | cons x xs ih =>
    rw [List.foldl_cons]
    rcases List.mem_cons.mp h with rfl | hx
    · exact le_trans (le_max_right a b) (le_foldl_max _ xs)
    · exact ih (max a x) hx

theorem pMax_ge_of_mem (x : ℚ) (l : List ℚ) (M : ℚ) (hx : x ∈ l)
    (hM : pMax l = some M) : x ≤ M := by
  cases l with
  | nil => cases hx
  | cons a xs =>
    simp only [pMax, Option.some.injEq] at hM
    subst hM
    rcases List.mem_cons.mp hx with rfl | h
    · exact le_foldl_max x xs
    · exact mem_le_foldl_max x a xs h

theorem roundHalfEven_le (q : ℚ) (z : ℤ) (h : q ≤ z) : roundHalfEven q ≤ z := by
  unfold roundHalfEven
  have hfl : ⌊q⌋ ≤ z := by
    have := Int.floor_le_floor h
    rwa [Int.floor_intCast] at this
  split_ifs with h1 h2 h3
  · exact hfl
  all_goals try exact hfl
  all_goals {
    have hfr : (1 : ℚ) / 2 ≤ q - ⌊q⌋ := le_of_not_lt h1
    have hlt : (⌊q⌋ : ℚ) < (z : ℚ) := by
      have hq : (⌊q⌋ : ℚ) < q := by linarith
      calc (⌊q⌋ : ℚ) < q := hq
        _ ≤ (z : ℚ) := h
    have : ⌊q⌋ < z := by exact_mod_cast hlt
    omega
  }

theorem round2_le_ten (q : ℚ) (h : q ≤ 10) : round2 q ≤ 10 := by
  unfold round2
  have h1 : q * 100 ≤ ((1000 : ℤ) : ℚ) := by push_cast; linarith
  have h2 : roundHalfEven (q * 100) ≤ 1000 := roundHalfEven_le _ 1000 h1
  have h3 : (roundHalfEven (q * 100) : ℚ) ≤ 1000 := by exact_mod_cast h2
  linarith

/-- The bound behind C3: the composite score is at most 10 whenever it is a
finite number at all, given the data-model ranges of the inputs. -/
theorem compositeBound (rows : List TrafficRow)
    (hcon : ∀ r ∈ rows, 0 ≤ r.req_per_min ∧ 0 ≤ r.avg_resp_time ∧
      0 ≤ r.error_rate ∧ r.error_rate ≤ 1)
    (o : Option ℚ) (ho : o ∈ compute_risk_score rows) (q : ℚ) (hq : o = some q) :
    q ≤ 10 := by
  subst hq
  unfold compute_risk_score at ho
  simp only [List.mem_map] at ho
  obtain ⟨r, hr, hor⟩ := ho
  obtain ⟨hreq0, hresp0, herr0, herr1⟩ := hcon r hr
  cases hMr : pMax (rows.map (·.req_per_min)) with
  | none => rw [hMr] at hor; simp [pDiv, pMulC, pAdd, pRound2] at hor
  | some M =>
    cases hRr : pMax (rows.map (·.avg_resp_time)) with
    | none => rw [hMr, hRr] at hor; simp [pDiv, pMulC, pAdd, pRound2] at hor
    | some R =>
      rw [hMr, hRr] at hor
      by_cases hM0 : M = 0
      · simp [pDiv, hM0, pMulC, pAdd, pRound2] at hor
      by_cases hR0 : R = 0
      · simp [pDiv, hM0, hR0, pMulC, pAdd, pRound2] at hor
      simp only [pDiv, hM0, if_false, hR0, pMulC, Option.map_some', pAdd,
        pRound2, Option.some.injEq] at hor
      have hMle : r.req_per_min ≤ M :=
        pMax_ge_of_mem _ _ _ (List.mem_map_of_mem (·.req_per_min) hr) hMr
      have hRle : r.avg_resp_time ≤ R :=
        pMax_ge_of_mem _ _ _ (List.mem_map_of_mem (·.avg_resp_time) hr) hRr
      have hMpos : 0 < M := lt_of_le_of_ne (le_trans hreq0 hMle) (Ne.symm hM0)
      have hRpos : 0 < R := lt_of_le_of_ne (le_trans hresp0 hRle) (Ne.symm hR0)
      have hdiv1 : r.req_per_min / M ≤ 1 := (div_le_one hMpos).mpr hMle
      have hdiv1n : 0 ≤ r.req_per_min / M := div_nonneg hreq0 (le_of_lt hMpos)
      have hdiv2 : r.avg_resp_time / R ≤ 1 := (div_le_one hRpos).mpr hRle
      have hdiv2n : 0 ≤ r.avg_resp_time / R := div_nonneg hresp0 (le_of_lt hRpos)
      rw [← hor]
      exact round2_le_ten _ (by nlinarith)

/-! ## Claim C3: the composite score is not clamped, but cannot exceed 10 -/

/-- C3 (amended): the composite policy applies no clamping step, yet for
every batch whose records have error_rate in [0,1] and non-negative request
counts and response times, every finite risk score it computes is at most
10 — the claimed overshoot past 10 is impossible. -/
theorem composite_risk_bounded_by_ten (rows : List TrafficRow)
    (hcon : ∀ r ∈ rows, 0 ≤ r.req_per_min ∧ 0 ≤ r.avg_resp_time ∧
      0 ≤ r.error_rate ∧ r.error_rate ≤ 1)
    (o : Option ℚ) (ho : o ∈ compute_risk_score rows) (q : ℚ) (hq : o = some q) :
    q ≤ 10 :=
  compositeBound rows hcon o ho q hq

/-- C3 counterexample to the claim as stated: there is no batch, with
error_rate in [0,1] and non-negative counts and response times, on which the
composite policy computes a risk score exceeding 10. -/
theorem composite_risk_never_exceeds_ten :
    ¬ ∃ rows : List TrafficRow,
      (∀ r ∈ rows, 0 ≤ r.req_per_min ∧ 0 ≤ r.avg_resp_time ∧
        0 ≤ r.error_rate ∧ r.error_rate ≤ 1) ∧
      ∃ q : ℚ, some q ∈ compute_risk_score rows ∧ 10 < q := by
  rintro ⟨rows, hcon, q, hq, hgt⟩
  exact absurd (compositeBound rows hcon (some q) hq q rfl) (not_le.mpr hgt)

/-- A one-record batch at the extreme of both normalizations. -/
def compositeRows : List TrafficRow :=
  [{ req_per_min := 1, error_rate := 0, avg_resp_time := 1,
     avg_req_size := 0, unique_endpoints := 0, anomaly_label := ("Anomaly".toList) }]

/-- Witness for C3's amended bound at the concrete batch `compositeRows`:
its one score is round2 6 and the theorem bounds it by 10. -/
theorem composite_risk_bounded_by_ten_witness :
    some (round2 6) ∈ compute_risk_score compositeRows ∧ round2 6 ≤ 10 := by
  have hEq : compute_risk_score compositeRows = [some (round2 6)] := by
    simp only [compute_risk_score, compositeRows, List.map_cons, List.map_nil, pMax,
      List.foldl_nil, pDiv, pMulC, pAdd, pRound2, Option.map_some']
    norm_num
  have hmem : some (round2 6) ∈ compute_risk_score compositeRows := by
    rw [hEq]; exact List.mem_singleton.mpr rfl
  refine ⟨hmem, composite_risk_bounded_by_ten compositeRows ?_ (some (round2 6)) hmem (round2 6) rfl⟩
  intro r hr
  rw [compositeRows, List.mem_singleton] at hr
  subst hr
  norm_num

/-! ## Claim C6: the composite formula itself -/

/-- C6: whenever the batch maxima of request rate and response time are
positive, each record's composite risk score is exactly
4·(req/max req) + 4·error_rate + 2·(resp/max resp), rounded to 2 decimals. -/
theorem composite_risk_formula (rows : List TrafficRow) (M R : ℚ)
    (hM : pMax (rows.map (·.req_per_min)) = some M) (hM0 : 0 < M)
    (hR : pMax (rows.map (·.avg_resp_time)) = some R) (hR0 : 0 < R) :
    compute_risk_score rows = rows.map (fun r =>
      some (round2 (4 * (r.req_per_min / M) + 4 * r.error_rate +
        2 * (r.avg_resp_time / R)))) := by
  unfold compute_risk_score
  rw [hM, hR]
  apply List.map_congr_left
  intro r _
  simp only [pDiv, hM0.ne', if_false, hR0.ne', pMulC, Option.map_some', pAdd,
    pRound2, Option.some.injEq]
  refine congrArg round2 ?_
  ring

/-- A two-record batch for the C6 witness; both maxima are 4. -/
def formulaRows : List TrafficRow :=
  [{ req_per_min := 2, error_rate := 1 / 2, avg_resp_time := 4,
     avg_req_size := 0, unique_endpoints := 0, anomaly_label := ("Anomaly".toList) },
   { req_per_min := 4, error_rate := 0, avg_resp_time := 2,
     avg_req_size := 0, unique_endpoints := 0, anomaly_label := ("Normal".toList) }]

/-- Witness for C6 on the concrete batch `formulaRows`. -/
theorem composite_risk_formula_witness :
    compute_risk_score formulaRows = formulaRows.map (fun r =>
      some (round2 (4 * (r.req_per_min / 4) + 4 * r.error_rate +
        2 * (r.avg_resp_time / 4)))) :=
  composite_risk_formula formulaRows 4 4
    (by norm_num [formulaRows, pMax, max_def])
    (by norm_num)
    (by norm_num [formulaRows, pMax, max_def])
    (by norm_num)

/-! ## Baseline explainer (src/ml/explainability.py) -/

def normalLabel : List Char := ("Normal".toList)

def anomalyLabel : List Char := ("Anomaly".toList)

/-- The explainer's input: the scored batch, and whether the feature file
carries the two optional columns the per-row checks probe with `in row`. -/
structure ExplainInput where
  rows : List TrafficRow
  hasAvgReqSize : Bool
  hasUniqueEndpoints : Bool

/-- `normal_df = df[df["anomaly_label"] == "Normal"]`. -/
def normalRows (rows : List TrafficRow) : List TrafficRow :=
  rows.filter (fun r => r.anomaly_label == normalLabel)

/-- `baseline = normal_df.mean(numeric_only=True)`: one per-feature mean,
NaN-valued when no record is labeled Normal.  The two optional entries model
`baseline.get(key, 0)`: the default 0 stands in when the column is absent. -/
structure Baseline where
  req_per_min : Option ℚ
  error_rate : Option ℚ
  avg_resp_time : Option ℚ
  avg_req_size : Option ℚ
  unique_endpoints : Option ℚ

def computeBaseline (inp : ExplainInput) : Baseline :=
  let ns := normalRows inp.rows
  { req_per_min := pMean (ns.map (·.req_per_min))
    error_rate := pMean (ns.map (·.error_rate))
    avg_resp_time := pMean (ns.map (·.avg_resp_time))
    avg_req_size := if inp.hasAvgReqSize then pMean (ns.map (·.avg_req_size)) else some 0
    unique_endpoints := if inp.hasUniqueEndpoints then pMean (ns.map (·.unique_endpoints)) else some 0 }

/-- `df["req_per_min"] / baseline["req_per_min"]`, rounded to 2 decimals. -/
def reqRateDeviation (b : Baseline) (r : TrafficRow) : Option ℚ :=
  pRound2 (pDiv r.req_per_min b.req_per_min)

def digitChar (n : ℕ) : Char := Char.ofNat (48 + n % 10)

def natToCharsAux : ℕ → ℕ → List Char
  | _, 0 => []
  | 0, _ + 1 => []
  | fuel + 1, n + 1 => natToCharsAux fuel ((n + 1) / 10) ++ [digitChar (n + 1)]

def natToChars (n : ℕ) : List Char := natToCharsAux n n

/-- Decimal rendering of a float as the explanation's f-string interpolates
it: "nan" for a non-finite value, otherwise sign, integer digits, a point
and two fractional digits (the interpolated deviation was already rounded
to 2 decimals). -/
def renderFloat : Option ℚ → List Char
  | none => ("nan".toList)
  | some q =>
    let a : ℚ := if q < 0 then -q else q
    let m : ℕ := (roundHalfEven (a * 100)).toNat
    (if q < 0 then ['-'] else []) ++
      (if m / 100 = 0 then [digitChar 0] else natToChars (m / 100)) ++
      '.' :: [digitChar (m % 100 / 10), digitChar (m % 100)]

def reasonRate (b : Baseline) (r : TrafficRow) : List Char :=
  ("Request rate exceeded baseline by ".toList) ++
    renderFloat (reqRateDeviation b r) ++ ("×".toList)

def reasonError : List Char := ("Unusually high error rate observed".toList)

def reasonLatency : List Char :=
  ("Response time significantly higher than baseline".toList)

def reasonPayload : List Char := ("Abnormally large request payloads".toList)

def reasonEndpoints : List Char :=
  ("Accessing unusually high number of endpoints".toList)

def reasonFallback : List Char :=
  ("Multiple feature deviations from learned baseline".toList)

def normalExplanation : List Char :=
  ("Traffic behavior within normal baseline".toList)

/-- The ordered deviation checks of `explain_row`, each contributing zero or
one reason. -/
def explainReasons (inp : ExplainInput) (b : Baseline) (r : TrafficRow) :
    List (List Char) :=
  (if pGT r.req_per_min (pMulC b.req_per_min 2) then [reasonRate b r] else []) ++
  (if pGT r.error_rate (pMulC b.error_rate 2) then [reasonError] else []) ++
  (if pGT r.avg_resp_time (pMulC b.avg_resp_time (3 / 2)) then [reasonLatency] else []) ++
  (if inp.hasAvgReqSize && pGT r.avg_req_size (pMulC b.avg_req_size (3 / 2)) then [reasonPayload] else []) ++
  (if inp.hasUniqueEndpoints && pGT r.unique_endpoints (pMulC b.unique_endpoints (3 / 2)) then [reasonEndpoints] else [])

/-- Python's `"; ".join`. -/
def joinSemi : List (List Char) → List Char
  | [] => []
  | [s] => s
  | s :: t :: rest => s ++ ';' :: ' ' :: joinSemi (t :: rest)

/-- `explain_row`: join the fired reasons, falling back to the generic
reason when none fired. -/
def explain_row (inp : ExplainInput) (b : Baseline) (r : TrafficRow) : List Char :=
  let reasons := explainReasons inp b r
  joinSemi (if reasons.isEmpty then [reasonFallback] else reasons)

/-- The per-row lambda of `generate_explanations`: `explain_row` for rows
labeled Anomaly, the fixed within-baseline string otherwise. -/
def explanationFor (inp : ExplainInput) (b : Baseline) (r : TrafficRow) : List Char :=
  if r.anomaly_label == anomalyLabel then explain_row inp b r else normalExplanation

/-- `generate_explanations`: the batch with its explanation column. -/
def generate_explanations (inp : ExplainInput) : List (TrafficRow × List Char) :=
  inp.rows.map (fun r => (r, explanationFor inp (computeBaseline inp) r))

/-! ## Claim C2: zero Normal records -/

/-- A batch in which every record is labeled Anomaly. -/
def allAnomalyBatch : ExplainInput :=
  { rows := [
      { req_per_min := 5, error_rate := 1, avg_resp_time := 3,
        avg_req_size := 10, unique_endpoints := 2, anomaly_label := anomalyLabel },
      { req_per_min := 7, error_rate := 1, avg_resp_time := 4,
        avg_req_size := 12, unique_endpoints := 3, anomaly_label := anomalyLabel }],
    hasAvgReqSize := true, hasUniqueEndpoints := true }

/-- C2 evidence: on a batch with zero Normal-labeled records the explainer
raises nothing — it returns a full batch of explanations — while the
baseline mean and the recorded deviation ratio are NaN (`none`), silently
propagated. -/
theorem empty_baseline_silent_nan :
    (computeBaseline allAnomalyBatch).req_per_min = none ∧
    reqRateDeviation (computeBaseline allAnomalyBatch)
      ({ req_per_min := 5, error_rate := 1, avg_resp_time := 3,
         avg_req_size := 10, unique_endpoints := 2, anomaly_label := anomalyLabel }) = none ∧
    generate_explanations allAnomalyBatch =
      [({ req_per_min := 5, error_rate := 1, avg_resp_time := 3,
          avg_req_size := 10, unique_endpoints := 2, anomaly_label := anomalyLabel }, reasonFallback),
       ({ req_per_min := 7, error_rate := 1, avg_resp_time := 4,
          avg_req_size := 12, unique_endpoints := 3, anomaly_label := anomalyLabel }, reasonFallback)] :=
  ⟨rfl, rfl, rfl⟩

/-! ## Claim C4: every record gets the right explanation -/

theorem mem_if_singleton {α : Type} {c : Prop} [Decidable c] {a s : α}
    (h : s ∈ if c then [a] else ([] : List α)) : s = a := by
  split at h
  · exact List.mem_singleton.mp h
  · cases h

theorem explainReasons_mem (inp : ExplainInput) (b : Baseline) (r : TrafficRow)
    (s : List Char) (hs : s ∈ explainReasons inp b r) :
    s = reasonRate b r ∨ s = reasonError ∨ s = reasonLatency ∨
    s = reasonPayload ∨ s = reasonEndpoints := by
  unfold explainReasons at hs
  rcases List.mem_append.mp hs with h | h5
  · rcases List.mem_append.mp h with h | h4
    · rcases List.mem_append.mp h with h | h3
      · rcases List.mem_append.mp h with h | h2
        · exact Or.inl (mem_if_singleton h)
        · exact Or.inr (Or.inl (mem_if_singleton h2))
      · exact Or.inr (Or.inr (Or.inl (mem_if_singleton h3)))
    · exact Or.inr (Or.inr (Or.inr (Or.inl (mem_if_singleton h4))))
  · exact Or.inr (Or.inr (Or.inr (Or.inr (mem_if_singleton h5))))

theorem reasonRate_ne_nil (b : Baseline) (r : TrafficRow) : reasonRate b r ≠ [] := by
  unfold reasonRate
  intro h
  rcases List.append_eq_nil.mp h with ⟨h1, _⟩
  rcases List.append_eq_nil.mp h1 with ⟨h2, _⟩
  exact absurd h2 (by decide)

theorem explainReasons_elem_ne_nil (inp : ExplainInput) (b : Baseline) (r : TrafficRow)
    (s : List Char) (hs : s ∈ explainReasons inp b r) : s ≠ [] := by
  rcases explainReasons_mem inp b r s hs with h | h | h | h | h <;> subst h
  · exact reasonRate_ne_nil b r
  all_goals decide

theorem joinSemi_ne_nil (l : List (List Char)) (hl : l ≠ [])
    (h : ∀ s ∈ l, s ≠ []) : joinSemi l ≠ [] := by
  match l with
  | [] => exact absurd rfl hl
  | [s] =>
    rw [joinSemi]
    exact h s (List.mem_singleton.mpr rfl)
  | s :: t :: rest =>
    rw [joinSemi]
    intro hh
    rcases List.append_eq_nil.mp hh with ⟨_, h2⟩
    cases h2

theorem explain_row_ne_nil (inp : ExplainInput) (b : Baseline) (r : TrafficRow) :
    explain_row inp b r ≠ [] := by
  unfold explain_row
  apply joinSemi_ne_nil
  · split
    · exact List.cons_ne_nil _ _
    · next hne => exact fun hc => hne (by rw [hc]; rfl)
  · intro s hs
    rcases Decidable.em ((explainReasons inp b r).isEmpty = true) with hE | hE
    · rw [if_pos hE] at hs
      rw [List.mem_singleton.mp hs]
      decide
    · rw [if_neg hE] at hs
      exact explainReasons_elem_ne_nil inp b r s hs

/-- C4: for every batch and every record of it, a record labeled Anomaly
gets a non-empty explanation string, and a record labeled Normal gets the
fixed within-baseline explanation. -/
theorem anomaly_explanations_labelled (inp : ExplainInput) (r : TrafficRow)
    (e : List Char) (hmem : (r, e) ∈ generate_explanations inp) :
    (r.anomaly_label = anomalyLabel → e ≠ []) ∧
    (r.anomaly_label = normalLabel → e = normalExplanation) := by
  unfold generate_explanations at hmem
  simp only [List.mem_map] at hmem
  obtain ⟨r', hr', heq⟩ := hmem
  rw [Prod.mk.injEq] at heq
  obtain ⟨rfl, rfl⟩ := heq
  constructor
  · intro hA
    unfold explanationFor
    rw [if_pos (by rw [hA]; rfl)]
    exact explain_row_ne_nil _ _ _
  · intro hN
    unfold explanationFor
    rw [hN, if_neg (by decide)]

/-- A Normal-labeled row for the mixed witness batch. -/
def rowN : TrafficRow :=
  { req_per_min := 4, error_rate := 0, avg_resp_time := 2,
    avg_req_size := 10, unique_endpoints := 2, anomaly_label := normalLabel }

/-- An Anomaly-labeled row for the mixed witness batch. -/
def rowA : TrafficRow :=
  { req_per_min := 5, error_rate := 1, avg_resp_time := 2,
    avg_req_size := 14, unique_endpoints := 2, anomaly_label := anomalyLabel }

/-- A batch with one Normal and one Anomaly record. -/
def mixedBatch : ExplainInput :=
  { rows := [rowN, rowA], hasAvgReqSize := true, hasUniqueEndpoints := true }

/-- Witness for C4 on `mixedBatch`, applied to its Anomaly record and its
Normal record. -/
theorem anomaly_explanations_labelled_witness :
    ((rowA.anomaly_label = anomalyLabel →
        explanationFor mixedBatch (computeBaseline mixedBatch) rowA ≠ []) ∧
     (rowA.anomaly_label = normalLabel →
        explanationFor mixedBatch (computeBaseline mixedBatch) rowA = normalExplanation)) ∧
    ((rowN.anomaly_label = anomalyLabel →
        explanationFor mixedBatch (computeBaseline mixedBatch) rowN ≠ []) ∧
     (rowN.anomaly_label = normalLabel →
        explanationFor mixedBatch (computeBaseline mixedBatch) rowN = normalExplanation)) :=
  ⟨anomaly_explanations_labelled mixedBatch rowA _
      (List.mem_map_of_mem (fun r => (r, explanationFor mixedBatch (computeBaseline mixedBatch) r))
        (by simp [mixedBatch])),
   anomaly_explanations_labelled mixedBatch rowN _
      (List.mem_map_of_mem (fun r => (r, explanationFor mixedBatch (computeBaseline mixedBatch) r))
        (by simp [mixedBatch]))⟩

/-! ## Claim C9: degenerate batch-relative normalization -/

/-- `features["burst_score"] = features["req_per_min"] /
features["req_per_min"].max()` (src/features/feature_engineering.py) —
with no guard on the maximum. -/
def burst_score (req_per_min : List ℚ) : List (Option ℚ) :=
  req_per_min.map (fun c => pDiv c (pMax req_per_min))

/-- A batch whose response times are all zero, so the composite policy's
`avg_resp_time.max()` is zero. -/
def zeroRespRows : List TrafficRow :=
  [{ req_per_min := 1, error_rate := 0, avg_resp_time := 0,
     avg_req_size := 0, unique_endpoints := 0, anomaly_label := anomalyLabel },
   { req_per_min := 2, error_rate := 0, avg_resp_time := 0,
     avg_req_size := 0, unique_endpoints := 0, anomaly_label := anomalyLabel }]

/-- C9 evidence: a zero batch-relative maximum is not guarded: the burst
normalization of an all-zero count column is NaN-valued rather than zero,
and so is every composite risk score of a batch whose response times are
all zero. -/
theorem degenerate_normalization_nan :
    burst_score ([0, 0]) = [none, none] ∧
    compute_risk_score zeroRespRows = [none, none] :=
  ⟨rfl, rfl⟩

/-! ## Keyword rule matcher (src/rules/rule_engine.py) and claim C10 -/

/-- `recommend_rule`: "No action required" for non-Anomaly rows, else the
first matching keyword of the lowercased explanation text. -/
def recommend_rule (anomaly_label explanation : List Char) : List Char :=
  if !(anomaly_label == anomalyLabel) then ("No action required".toList)
  else if containsSub ("high request rate".toList) (pyLower explanation) then
    ("Rate limit IP for 5 minutes".toList)
  else if containsSub ("error rate".toList) (pyLower explanation) then
    ("Temporarily block IP".toList)
  else if containsSub ("payload".toList) (pyLower explanation) then
    ("Inspect payload and block if repeated".toList)
  else ("Monitor traffic closely".toList)

def hrrPattern : List Char := ("high request rate".toList)

theorem containsSub_cons (p : List Char) (c : Char) (s : List Char)
    (h : containsSub p s = true) : containsSub p (c :: s) = true := by
  rw [containsSub, h, Bool.or_true]

theorem containsSub_of_isPrefixOf (p s : List Char)
    (h : p.isPrefixOf s = true) : containsSub p s = true := by
  cases s with
  | nil =>
    cases p with
    | nil => rfl
    | cons a l => simp [List.isPrefixOf] at h
  | cons c t => rw [containsSub, h, Bool.true_or]

theorem mem_of_containsSub (p s : List Char) (h : containsSub p s = true)
    (a : Char) (ha : a ∈ p) : a ∈ s := by
  induction s with
  | nil =>
    rw [containsSub, List.isEmpty_iff] at h
    subst h
    cases ha
  | cons c t ih =>
    rw [containsSub, Bool.or_eq_true] at h
    rcases h with h | h
    · obtain ⟨u, hu⟩ := List.isPrefixOf_iff_prefix.mp h
      rw [← hu]
      exact List.mem_append_left u ha
    · exact List.mem_cons_of_mem c (ih h)

theorem isPrefixOf_append_semi (p : List Char) (hp : (';' : Char) ∉ p)
    (xs ys : List Char) (h : p.isPrefixOf (xs ++ ';' :: ys) = true) :
    p.isPrefixOf xs = true := by
  induction p generalizing xs with
  | nil => simp [List.isPrefixOf]
  | cons a p' ih =>
    cases xs with
    | nil =>
      rw [List.nil_append, List.isPrefixOf, Bool.and_eq_true] at h
      have ha : a = ';' := by simpa using h.1
      exact absurd (List.mem_cons.mpr (Or.inl ha.symm)) hp
    | cons b xs' =>
      rw [List.cons_append, List.isPrefixOf, Bool.and_eq_true] at h
      rw [List.isPrefixOf, Bool.and_eq_true]
      exact ⟨h.1, ih (fun hm => hp (List.mem_cons_of_mem a hm)) xs' h.2⟩

theorem containsSub_append_semi (p : List Char) (hp : (';' : Char) ∉ p)
    (xs ys : List Char) (h : containsSub p (xs ++ ';' :: ys) = true) :
    containsSub p xs = true ∨ containsSub p ys = true := by
  induction xs with
  | nil =>
    rw [List.nil_append, containsSub, Bool.or_eq_true] at h
    rcases h with h | h
    · cases p with
      | nil => exact Or.inl rfl
      | cons a p' =>
        rw [List.isPrefixOf, Bool.and_eq_true] at h
        have ha : a = ';' := by simpa using h.1
        exact absurd (List.mem_cons.mpr (Or.inl ha.symm)) hp
    · exact Or.inr h
  | cons c xs' ih =>
    rw [List.cons_append, containsSub, Bool.or_eq_true] at h
    rcases h with h | h
    · exact Or.inl (containsSub_of_isPrefixOf _ _
        (isPrefixOf_append_semi p hp (c :: xs') ys h))
    · rcases ih h with h' | h'
      · exact Or.inl (containsSub_cons _ _ _ h')
      · exact Or.inr h'

theorem containsSub_joinSemi (p : List Char) (hp : (';' : Char) ∉ p)
    (hne : p ≠ []) (l : List (List Char))
    (h : containsSub p (joinSemi l) = true) :
    ∃ s ∈ l, containsSub p (' ' :: s) = true := by
  induction l with
  | nil =>
    rw [joinSemi, containsSub, List.isEmpty_iff] at h
    exact absurd h hne
  | cons s rest ih =>
    cases rest with
    | nil =>
      rw [joinSemi] at h
      exact ⟨s, List.mem_cons_self s [], containsSub_cons _ _ _ h⟩
    | cons t rest' =>
      rw [joinSemi] at h
      rcases containsSub_append_semi p hp s (' ' :: joinSemi (t :: rest')) h with h1 | h1
      · exact ⟨s, List.mem_cons_self _ _, containsSub_cons _ _ _ h1⟩
      · rw [containsSub, Bool.or_eq_true] at h1
        rcases h1 with h2 | h2
        · cases rest' with
          | nil =>
            rw [joinSemi] at h2
            exact ⟨t, List.mem_cons_of_mem s (List.mem_cons_self t []),
              containsSub_of_isPrefixOf _ _ h2⟩
          | cons u rest'' =>
            rw [joinSemi] at h2
            have h3 : p.isPrefixOf (' ' :: t) = true :=
              isPrefixOf_append_semi p hp (' ' :: t) (' ' :: joinSemi (u :: rest'')) h2
            exact ⟨t, List.mem_cons_of_mem s (List.mem_cons_self t _),
              containsSub_of_isPrefixOf _ _ h3⟩
        · rcases ih h2 with ⟨s', hs', hc⟩
          exact ⟨s', List.mem_cons_of_mem _ hs', hc⟩

theorem pyLower_joinSemi (l : List (List Char)) :
    pyLower (joinSemi l) = joinSemi (l.map pyLower) := by
  induction l with
  | nil => rfl
  | cons s rest ih =>
    cases rest with
    | nil => rfl
    | cons t rest' =>
      rw [joinSemi, List.map_cons, List.map_cons, joinSemi, ← List.map_cons pyLower t rest']
      rw [pyLower, List.map_append, List.map_cons, List.map_cons]
      rw [← pyLower, ← pyLower, ih]
      rfl

/-- The characters a rendered float can contain. -/
def floatChars : List Char := ("0123456789.-an".toList)

theorem digitChar_mem (n : ℕ) : digitChar n ∈ floatChars := by
  unfold digitChar
  set k := n % 10 with hk
  have h : k < 10 := by rw [hk]; exact Nat.mod_lt _ (by norm_num)
  clear_value k
  interval_cases k <;> decide

theorem natToCharsAux_subset (fuel n : ℕ) :
    ∀ c ∈ natToCharsAux fuel n, c ∈ floatChars := by
  induction fuel generalizing n with
  | zero => cases n <;> intro c hc <;> cases hc
  | succ f ih =>
    cases n with
    | zero => intro c hc; cases hc
    | succ m =>
      intro c hc
      rw [natToCharsAux] at hc
      rcases List.mem_append.mp hc with h | h
      · exact ih _ c h
      · rw [List.mem_singleton.mp h]
        exact digitChar_mem _

theorem renderFloat_subset (o : Option ℚ) : ∀ c ∈ renderFloat o, c ∈ floatChars := by
  cases o with
  | none => decide
  | some q =>
    intro c hc
    unfold renderFloat at hc
    have hint : ∀ m : ℕ,
        c ∈ (if m / 100 = 0 then [digitChar 0] else natToChars (m / 100)) →
        c ∈ floatChars := by
      intro m hm
      by_cases hz : m / 100 = 0
      · rw [if_pos hz] at hm
        rw [List.mem_singleton.mp hm]
        exact digitChar_mem 0
      · rw [if_neg hz] at hm
        rw [natToChars] at hm
        exact natToCharsAux_subset _ _ c hm
    rcases List.mem_append.mp hc with h | h
    · rcases List.mem_append.mp h with h1 | h1
      · by_cases hq : q < 0
        · rw [if_pos hq] at h1
          rw [List.mem_singleton.mp h1]
          decide
        · rw [if_neg hq] at h1
          cases h1
      · exact hint _ h1
    · rcases List.mem_cons.mp h with h1 | h1
      · rw [h1]; decide
      rcases List.mem_cons.mp h1 with h2 | h2
      · rw [h2]; exact digitChar_mem _
      rcases List.mem_cons.mp h2 with h3 | h3
      · rw [h3]; exact digitChar_mem _
      · cases h3

theorem toLower_floatChars (c : Char) (h : c ∈ floatChars) : Char.toLower c = c := by
  fin_cases h <;> rfl

theorem h_not_in_lower_reasonRate (b : Baseline) (r : TrafficRow) :
    ('h' : Char) ∉ pyLower (reasonRate b r) := by
  intro hmem
  unfold reasonRate pyLower at hmem
  rw [List.map_append, List.map_append] at hmem
  rcases List.mem_append.mp hmem with h | h
  · rcases List.mem_append.mp h with h | h
    · exact absurd h (by decide)
    · obtain ⟨c, hc, hlc⟩ := List.mem_map.mp h
      rw [toLower_floatChars c (renderFloat_subset _ c hc)] at hlc
      subst hlc
      exact absurd (renderFloat_subset _ _ hc) (by decide)
  · exact absurd h (by decide)

theorem hrr_not_in_rate (b : Baseline) (r : TrafficRow) :
    containsSub hrrPattern (' ' :: pyLower (reasonRate b r)) = false := by
  by_contra hcon
  rw [Bool.not_eq_false] at hcon
  have hmem := mem_of_containsSub _ _ hcon 'h' (by decide)
  rcases List.mem_cons.mp hmem with h | h
  · exact absurd h (by decide)
  · exact h_not_in_lower_reasonRate b r h

theorem hrr_not_in_explanation (inp : ExplainInput) (b : Baseline) (r : TrafficRow) :
    containsSub hrrPattern (pyLower (explain_row inp b r)) = false := by
  by_contra hcon
  rw [Bool.not_eq_false] at hcon
  unfold explain_row at hcon
  rw [pyLower_joinSemi] at hcon
  obtain ⟨s, hs, hc⟩ := containsSub_joinSemi hrrPattern (by decide) (by decide) _ hcon
  obtain ⟨s0, hs0, rfl⟩ := List.mem_map.mp hs
  rcases Decidable.em ((explainReasons inp b r).isEmpty = true) with hE | hE
  · rw [if_pos hE] at hs0
    rw [List.mem_singleton.mp hs0] at hc
    exact absurd hc (by decide)
  · rw [if_neg hE] at hs0
    rcases explainReasons_mem inp b r s0 hs0 with h | h | h | h | h <;> subst h
    · rw [hrr_not_in_rate b r] at hc
      cases hc
    all_goals exact absurd hc (by decide)

/-- C10: on any record labeled Anomaly whose explanation was produced by
`explain_row`, the keyword matcher can never take the "high request rate"
branch — no explanation the explainer can produce contains that substring
after lowercasing — so `recommend_rule` returns one of the other three
anomaly actions and never "Rate limit IP for 5 minutes". -/
theorem rate_limit_branch_unreachable (inp : ExplainInput) (b : Baseline)
    (r : TrafficRow) (hlab : r.anomaly_label = anomalyLabel) :
    recommend_rule r.anomaly_label (explain_row inp b r) ≠
      ("Rate limit IP for 5 minutes".toList) ∧
    recommend_rule r.anomaly_label (explain_row inp b r) ∈
      [("Temporarily block IP".toList),
       ("Inspect payload and block if repeated".toList),
       ("Monitor traffic closely".toList)] := by
  unfold recommend_rule
  rw [hlab]
  rw [if_neg (by decide : ¬ ((!(anomalyLabel == anomalyLabel)) = true))]
  have hno := hrr_not_in_explanation inp b r
  rw [hrrPattern] at hno
  rw [if_neg (by rw [hno]; exact Bool.false_ne_true)]
  split_ifs <;> exact ⟨by decide, by decide⟩

/-- Witness for C10 on the Anomaly record of the mixed batch. -/
theorem rate_limit_branch_unreachable_witness :
    recommend_rule rowA.anomaly_label
        (explain_row mixedBatch (computeBaseline mixedBatch) rowA) ≠
      ("Rate limit IP for 5 minutes".toList) ∧
    recommend_rule rowA.anomaly_label
        (explain_row mixedBatch (computeBaseline mixedBatch) rowA) ∈
      [("Temporarily block IP".toList),
       ("Inspect payload and block if repeated".toList),
       ("Monitor traffic closely".toList)] :=
  rate_limit_branch_unreachable mixedBatch (computeBaseline mixedBatch) rowA rfl
